import Mathlib

/-!
Verification of the e-queo-pdf scraper (src/e-queo-pdf.py) against its
natural-language specification.

The script is shallowly embedded: Python text is modelled as `List Char`,
HTTP servers as functions from request data to `Option` responses (`none`
models a `requests.exceptions.RequestException`, including a non-2xx status
surfaced by `raise_for_status`), and each fetch operation additionally
returns the list of requests it issued, in order.  A `SystemExit` raised by
an `except` branch is the `abort` outcome; the `while` loops are given
explicit fuel, with a separate `fuelOut` outcome that the real program
cannot distinguish (it only bounds the model).
-/

/-- Python text (a `str`) is modelled as a list of characters. -/
abbrev Str := List Char

/-! ## Line splitting and joining

`re.sub` with the `MULTILINE` flag and the anchored pattern `^(#+)` acts
independently on each newline-separated line of its input, so the heading
shift of `shift_headings` (lines 183-186) is modelled by splitting on
`'\n'`, rewriting each line, and joining back. -/

/-- Split a text on the newline character; always returns at least one
(possibly empty) line, exactly like `str.split('\n')` in Python. -/
def splitNl : Str → List Str
  | [] => [[]]
  | c :: cs =>
      if c = '\n' then [] :: splitNl cs
      else
        match splitNl cs with
        | [] => [[c]]
        | l :: ls => (c :: l) :: ls

/-- Join lines with the newline character (inverse of `splitNl` on
newline-free lines). -/
def joinNl : List Str → Str
  | [] => []
  | [l] => l
  | l :: ls => l ++ '\n' :: joinNl ls

theorem splitNl_ne_nil (s : Str) : splitNl s ≠ [] := by
  induction s with
  | nil => simp [splitNl]
  | cons c cs ih =>
      simp only [splitNl]
      split
      · simp
      · cases h : splitNl cs with
        | nil => simp
        | cons l ls => simp

theorem not_mem_of_mem_splitNl (s : Str) (l : Str) (hl : l ∈ splitNl s) :
    '\n' ∉ l := by
  induction s generalizing l with
  | nil =>
      simp [splitNl] at hl
      simp [hl]
  | cons c cs ih =>
      by_cases hc : c = '\n'
      · rw [show splitNl (c :: cs) = [] :: splitNl cs by simp [splitNl, hc]] at hl
        rcases List.mem_cons.mp hl with h1 | h1
        · simp [h1]
        · exact ih l h1
      · cases h : splitNl cs with
        | nil => exact absurd h (splitNl_ne_nil cs)
        | cons t ts =>
            rw [show splitNl (c :: cs) = (c :: t) :: ts by simp [splitNl, hc, h]] at hl
            rcases List.mem_cons.mp hl with h1 | h1
            · subst h1
              intro hmem
              rcases List.mem_cons.mp hmem with h2 | h2
              · exact hc h2.symm
              · exact ih t (by rw [h]; exact List.mem_cons_self t ts) h2
            · exact ih l (by rw [h]; exact List.mem_cons_of_mem t h1)

theorem splitNl_append_nl (a b : Str) :
    splitNl (a ++ '\n' :: b) = splitNl a ++ splitNl b := by
  induction a with
  | nil => simp [splitNl]
  | cons c cs ih =>
      by_cases hc : c = '\n'
      · simp [splitNl, hc, ih]
      · cases h : splitNl cs with
        | nil => exact absurd h (splitNl_ne_nil cs)
        | cons l ls =>
            rw [show splitNl (c :: cs) = (c :: l) :: ls by simp [splitNl, hc, h]]
            rw [show (c :: cs) ++ '\n' :: b = c :: (cs ++ '\n' :: b) by simp]
            rw [show splitNl (c :: (cs ++ '\n' :: b))
                  = (c :: l) :: (ls ++ splitNl b) by
              simp [splitNl, hc, ih, h]]
            simp

theorem splitNl_of_not_mem (a : Str) (ha : '\n' ∉ a) : splitNl a = [a] := by
  induction a with
  | nil => simp [splitNl]
  | cons c cs ih =>
      simp only [List.mem_cons, not_or] at ha
      have hc : ¬ c = '\n' := fun h => ha.1 (h ▸ rfl)
      simp only [splitNl, hc, if_false, ih ha.2]

theorem splitNl_joinNl (ls : List Str) (hne : ls ≠ [])
    (hnl : ∀ l ∈ ls, '\n' ∉ l) : splitNl (joinNl ls) = ls := by
  induction ls with
  | nil => exact absurd rfl hne
  | cons l rest ih =>
      cases rest with
      | nil =>
          simp only [joinNl]
          exact splitNl_of_not_mem l (hnl l (by simp))
      | cons m ms =>
          have : joinNl (l :: m :: ms) = l ++ '\n' :: joinNl (m :: ms) := rfl
          rw [this, splitNl_append_nl, splitNl_of_not_mem l (hnl l (by simp)),
            ih (by simp) (fun x hx => hnl x (by simp [hx]))]
          rfl

/-! ## Configuration reading (src/e-queo-pdf.py lines 19-29)

`ConfigParser` is an external collaborator; the parsed `config.ini` is
modelled as an association list of sections, each an association list of
option names to values.  `config.has_section(section)` is a lookup among
the section names, `config[section][name]` a lookup that raises `KeyError`
when the option name is missing. -/

/-- An exception escaping `get_config_data`: either the descriptive
`Exception` the function itself raises for a missing section (carrying the
section and filename interpolated into its message), or the `KeyError`
escaping `config[section][name]`. -/
inductive ConfigError where
  | sectionNotFound (sect : Str) (filename : Str)
  | keyError (name : Str)
deriving Repr, DecidableEq

/-- Embedding of `get_config_data` (lines 19-29): check `has_section`, then
index the section by the option name; a missing section raises the
descriptive exception, a missing option name a `KeyError`. -/
def get_config_data (config : List (Str × List (Str × Str)))
    (filename sect name : Str) : Except ConfigError Str :=
  match config.find? (fun s => s.1 == sect) with
  | some s =>
      match s.2.find? (fun kv => kv.1 == name) with
      | some kv => Except.ok kv.2
      | none => Except.error (ConfigError.keyError name)
  | none => Except.error (ConfigError.sectionNotFound sect filename)

/-! ## Data model

The JSON shapes the script reads.  Each raw response record carries an
`extra` field standing for the parts of the JSON object the code never
reads; the extraction lambdas of `get_learning_programs` (lines 50-63)
drop it. -/

/-- A material object inside a learning-programs response. -/
structure MatJson where
  id : Nat
  name : Str
  order : Int
  extra : Str
deriving Repr, DecidableEq

/-- A section object inside a learning-programs response. -/
structure SecJson where
  id : Nat
  name : Str
  order : Int
  materials : List MatJson
  extra : Str
deriving Repr, DecidableEq

/-- A program object inside a learning-programs response. -/
structure ProgJson where
  id : Nat
  name : Str
  order : Int
  sections : List SecJson
  extra : Str
deriving Repr, DecidableEq

/-- One page of the `learning-programs` endpoint:
`response['success']['learning_programs']` and
`response['success']['meta']['pagination']['pages_count']`. -/
structure LPResp where
  learning_programs : List ProgJson
  pages_count : Nat
deriving Repr, DecidableEq

/-- The material dictionary built by `lambda_extract_materials` (lines 51-56). -/
structure Material where
  id : Nat
  name : Str
  order : Int
deriving Repr, DecidableEq

/-- The section dictionary built by `lambda_extract_sections` (lines 58-63). -/
structure Section where
  id : Nat
  name : Str
  order : Int
  materials : List Material
deriving Repr, DecidableEq

/-- The per-program dictionary stored into `programs` (lines 74-78). -/
structure ProgramVal where
  name : Str
  sections : List Section
  order : Int
deriving Repr, DecidableEq

/-- Embedding of `lambda_extract_materials` (lines 51-56). -/
def lambda_extract_materials (material : MatJson) : Material :=
  { id := material.id, name := material.name, order := material.order }

/-- Embedding of `lambda_extract_sections` (lines 58-63). -/
def lambda_extract_sections (s : SecJson) : Section :=
  { id := s.id, name := s.name, order := s.order,
    materials := s.materials.map lambda_extract_materials }

/-- The dictionary value built for one program (lines 74-78). -/
def extract_program (p : ProgJson) : ProgramVal :=
  { name := p.name, sections := p.sections.map lambda_extract_sections,
    order := p.order }

/-- A material record of a `materials-cr` response (its `id` and `type`
are read at lines 107-110). -/
structure CRMat where
  id : Nat
  type : Str
  extra : Str
deriving Repr, DecidableEq

/-- One page of the `materials-cr` endpoint. -/
structure CRResp where
  materials : List CRMat
  pages_count : Nat
deriving Repr, DecidableEq

/-- A record of a `longreads/pages/titles` response (lines 134-137). -/
structure PageTitle where
  longread_id : Nat
  uuid : Str
  extra : Str
deriving Repr, DecidableEq

/-- One page of the `longreads/pages/titles` endpoint. -/
structure TitlesResp where
  page_titles : List PageTitle
  pages_count : Nat
deriving Repr, DecidableEq

/-- The id/uuid pair built by `get_longreads_uuids` (lines 134-137). -/
structure Longread where
  id : Nat
  uuid : Str
deriving Repr, DecidableEq

/-- The response of the `longreads/page` endpoint; the code reads only
`response['success']['page']['body']` (line 158), `pages_count` stands for
pagination metadata in the response that the code never reads. -/
structure PageResp where
  body : Str
  pages_count : Nat
deriving Repr, DecidableEq

/-- An entry of the `longreads_content` list built in `main` (lines 206-211). -/
structure ContentEntry where
  id : Nat
  content : Str
deriving Repr, DecidableEq

/-! ## Paginated fetching

`get_learning_programs` (lines 45-81), `get_longread_ids` (lines 84-113)
and `get_longreads_uuids` (lines 116-140) share one `while has_next` loop
shape: request page `page_num` starting at 1, merge the page's items into
the accumulator, continue while `page_num <
response['success']['meta']['pagination']['pages_count']`.  `pagedLoop` is
that shared loop; each fetch operation instantiates it with its own server,
page-count projection and per-page merge.  The first component of the
result is the list of page numbers requested, in order. -/

/-- Result of a fetch operation: a normal return, the `SystemExit` raised
on a `RequestException` (`abort`), or exhaustion of the model's fuel. -/
inductive Outcome (α : Type) where
  | ok (val : α)
  | abort
  | fuelOut
deriving Repr, DecidableEq

/-- The shared `while has_next` pagination loop. -/
def pagedLoop {ρ α : Type} (server : Nat → Option ρ) (pc : ρ → Nat)
    (step : α → ρ → α) : Nat → Nat → α → List Nat → List Nat × Outcome α
  | 0, _, _, log => (log, Outcome.fuelOut)
  | fuel + 1, page_num, acc, log =>
      match server page_num with
      | none => (log ++ [page_num], Outcome.abort)
      | some resp =>
          let acc2 := step acc resp
          if page_num < pc resp then
            pagedLoop server pc step fuel (page_num + 1) acc2 (log ++ [page_num])
          else
            (log ++ [page_num], Outcome.ok acc2)

/-- Python dictionary assignment `d[k] = v` on an insertion-ordered
association list: an existing key keeps its position and gets the new
value, a new key is appended. -/
def dictInsert {α : Type} (k : Nat) (v : α) :
    List (Nat × α) → List (Nat × α)
  | [] => [(k, v)]
  | kv :: rest => if kv.1 = k then (k, v) :: rest else kv :: dictInsert k v rest

/-- Embedding of `get_learning_programs` (lines 45-81): page through the
`learning-programs` endpoint, storing each program into the `programs`
dictionary under its id. -/
def get_learning_programs (server : Nat → Option LPResp) (fuel : Nat) :
    List Nat × Outcome (List (Nat × ProgramVal)) :=
  pagedLoop server (fun r => r.pages_count)
    (fun programs r => r.learning_programs.foldl
      (fun ps p => dictInsert p.id (extract_program p) ps) programs)
    fuel 1 [] []

/-- The request body of `get_longread_ids` (lines 90-95): every material id
of every section of the program, in order. -/
def program_material_ids (program : ProgramVal) : List Nat :=
  program.sections.flatMap (fun s => s.materials.map (fun m => m.id))

/-- Embedding of `get_longread_ids` (lines 84-113): POST the program's
material ids to `materials-cr` page by page, keeping the ids of returned
materials whose `type` is `'longread'`.  The server is a function of the
request body and the page number. -/
def get_longread_ids (server : List Nat → Nat → Option CRResp)
    (program : ProgramVal) (fuel : Nat) : List Nat × Outcome (List Nat) :=
  pagedLoop (server (program_material_ids program)) (fun r => r.pages_count)
    (fun ids r => ids ++ (r.materials.filter
      (fun x => x.type == "longread".toList)).map (fun y => y.id))
    fuel 1 [] []

/-- Embedding of `get_longreads_uuids` (lines 116-140): POST the longread
ids to `longreads/pages/titles` page by page, collecting id/uuid pairs. -/
def get_longreads_uuids (server : List Nat → Nat → Option TitlesResp)
    (longreads_ids : List Nat) (fuel : Nat) :
    List Nat × Outcome (List Longread) :=
  pagedLoop (server longreads_ids) (fun r => r.pages_count)
    (fun lrs r => lrs ++ r.page_titles.map
      (fun x => { id := x.longread_id, uuid := x.uuid }))
    fuel 1 [] []

/-- Embedding of `get_longread_content` (lines 143-158): one POST to
`longreads/page` with the longread id and the page uuid, no loop and no
page number.  The first component lists the issued requests as
(longread id, page uuid) pairs. -/
def get_longread_content (server : Nat → Str → Option PageResp)
    (longread : Longread) : List (Nat × Str) × Outcome Str :=
  match server longread.id longread.uuid with
  | none => ([(longread.id, longread.uuid)], Outcome.abort)
  | some resp => ([(longread.id, longread.uuid)], Outcome.ok resp.body)

/-! ## Filtering and sorting -/

/-- Embedding of `filter_longreads` (lines 161-167): keep, in every section,
only the materials whose id is in `longreads_ids` (Python's
`x['id'] in longreads_ids`). -/
def filter_longreads (program : ProgramVal) (longreads_ids : List Nat) :
    ProgramVal :=
  { program with sections := program.sections.map (fun s =>
      { s with materials := s.materials.filter (fun x => longreads_ids.contains x.id) }) }

/-- Stable insertion of `x` into a key-sorted list: `x` goes in front of the
first element whose key is not below `x`'s. -/
def insertSorted {α : Type} (key : α → Int) (x : α) : List α → List α
  | [] => [x]
  | y :: ys => if key x ≤ key y then x :: y :: ys else y :: insertSorted key x ys

/-- Python's `sorted(..., key=...)`: a stable sort.  All stable sorts under
the same total preorder agree, so this stable insertion sort models
`sorted` exactly. -/
def sortedByKey {α : Type} (key : α → Int) : List α → List α
  | [] => []
  | x :: xs => insertSorted key x (sortedByKey key xs)

/-! ## Markdown assembly (lines 170-186) -/

/-- Rewrite one line the way `re.sub(r'^(#+)', r'\1' + '#'*level, md,
flags=re.MULTILINE)` rewrites it: a nonempty leading run of `'#'` is
extended by `level` further `'#'` characters; any other line is kept. -/
def shiftLine (level : Nat) (line : Str) : Str :=
  let run := line.takeWhile (fun c => c == '#')
  if run == [] then line
  else run ++ List.replicate level '#' ++ line.dropWhile (fun c => c == '#')

/-- Embedding of `shift_headings` (lines 183-186): the anchored multiline
substitution acts on each newline-separated line independently. -/
def shift_headings (md : Str) (level : Nat) : Str :=
  joinNl ((splitNl md).map (shiftLine level))

/-- The content looked up for a material (line 175-176): the `content` of
the first entry of `longreads_content` whose id matches, if any. -/
def find_content (longreads_content : List ContentEntry) (id : Nat) :
    Option Str :=
  (longreads_content.find? (fun x => x.id == id)).map (fun x => x.content)

/-- The inner loop of `create_program_content_md` (lines 174-179) over an
already-sorted material list, threading the accumulated document.  A
material whose content lookup yields `None` makes `shift_headings` throw
(`re.sub` on a non-string): that exception is the `none` result. -/
def create_materials_md (longreads_content : List ContentEntry) (acc : Str) :
    List Material → Option Str
  | [] => some acc
  | material :: rest =>
      match find_content longreads_content material.id with
      | none => none
      | some text =>
          create_materials_md longreads_content
            (acc ++ ('#' :: ' ' :: material.name)
              ++ ('\n' :: '\n' :: '\n' :: shift_headings text 1) ++ ['\n'])
            rest

/-- The outer loop of `create_program_content_md` (lines 172-179): each
section contributes its materials sorted by their `order` field. -/
def create_sections_md (longreads_content : List ContentEntry) (acc : Str) :
    List Section → Option Str
  | [] => some acc
  | s :: rest =>
      match create_materials_md longreads_content acc
          (sortedByKey (fun m => m.order) s.materials) with
      | none => none
      | some acc2 => create_sections_md longreads_content acc2 rest

/-- Embedding of `create_program_content_md` (lines 170-180).  `main` passes
it the sections already sorted by `order` (lines 216-217); it sorts each
section's materials itself.  `none` models the exception thrown on a
missing content entry. -/
def create_program_content_md (sections : List Section)
    (longreads_content : List ContentEntry) : Option Str :=
  create_sections_md longreads_content [] sections

/-! ## The main driver (lines 189-258)

`main` fetches the program dictionary, then processes each program in
order: fetch its longread ids, their page uuids, each page's content, and
only then write the program's three output files (`output/md/<name>.md`,
`output/html/<name>.htm`, `output/pdf/<name>.pdf`).  The Markdown renderer
(`markdown.markdown`) and the filename sanitiser (`pathvalidate`) are
external collaborators, passed in as opaque functions; `pdfkit.from_file`
converts the just-written html file.  The model records the file writes as
a trace of events. -/

/-- A file written under `output/`: the program's Markdown, its rendered
html, or the pdf produced from the html by `pdfkit`. -/
inductive FileEvent where
  | writeMd (filename : Str) (content : Str)
  | writeHtml (filename : Str) (content : Str)
  | writePdf (filename : Str)
deriving Repr, DecidableEq

/-- How a run of `main` ends: normal completion, `SystemExit` from an HTTP
failure, an uncaught exception from a missing content entry in
`create_program_content_md`, or the model's fuel bound. -/
inductive RunResult where
  | done
  | abort
  | crash
  | fuelOut
deriving Repr, DecidableEq

/-- The four HTTP servers the script talks to. -/
structure Servers where
  lp : Nat → Option LPResp
  cr : List Nat → Nat → Option CRResp
  titles : List Nat → Nat → Option TitlesResp
  page : Nat → Str → Option PageResp

/-- The `for longread in longreads` loop of `main` (lines 206-211):
fetch each page's content and append an id/content entry; an HTTP failure
raises `SystemExit` (the `none` result). -/
def fetch_longreads_content (server : Nat → Str → Option PageResp) :
    List Longread → List ContentEntry → Option (List ContentEntry)
  | [], acc => some acc
  | lr :: rest, acc =>
      match (get_longread_content server lr).2 with
      | Outcome.ok content =>
          fetch_longreads_content server rest
            (acc ++ [{ id := lr.id, content := content }])
      | _ => none

/-- The marker `'[TOC] \n\n'` prefixed to the document (line 226). -/
def tocMarker : Str := "[TOC] \n\n".toList

/-- The body of `main`'s per-program loop (lines 197-257): all the HTTP
fetching for the program happens first; the three file writes happen only
after every fetch for this program has succeeded. -/
def process_program (sv : Servers) (sanitize render : Str → Str)
    (fuel : Nat) (program : ProgramVal) : List FileEvent × RunResult :=
  match (get_longread_ids sv.cr program fuel).2 with
  | Outcome.abort => ([], RunResult.abort)
  | Outcome.fuelOut => ([], RunResult.fuelOut)
  | Outcome.ok longreads_ids =>
      match (get_longreads_uuids sv.titles longreads_ids fuel).2 with
      | Outcome.abort => ([], RunResult.abort)
      | Outcome.fuelOut => ([], RunResult.fuelOut)
      | Outcome.ok longreads =>
          match fetch_longreads_content sv.page longreads [] with
          | none => ([], RunResult.abort)
          | some longreads_content =>
              let filtered := filter_longreads program longreads_ids
              let sections := sortedByKey (fun s => s.order) filtered.sections
              let file_name := sanitize program.name
              match create_program_content_md sections longreads_content with
              | none => ([], RunResult.crash)
              | some md =>
                  let doc := tocMarker ++ md
                  ([FileEvent.writeMd file_name doc,
                    FileEvent.writeHtml file_name (render doc),
                    FileEvent.writePdf file_name], RunResult.done)

/-- The `for program_id in programs` loop of `main` (lines 197-257),
carrying the trace of files written so far; a failure ends the run but the
files already written stay on disk. -/
def main_loop (sv : Servers) (sanitize render : Str → Str) (fuel : Nat) :
    List (Nat × ProgramVal) → List FileEvent → List FileEvent × RunResult
  | [], events => (events, RunResult.done)
  | entry :: rest, events =>
      match process_program sv sanitize render fuel entry.2 with
      | (evs, RunResult.done) =>
          main_loop sv sanitize render fuel rest (events ++ evs)
      | (evs, RunResult.abort) => (events ++ evs, RunResult.abort)
      | (evs, RunResult.crash) => (events ++ evs, RunResult.crash)
      | (evs, RunResult.fuelOut) => (events ++ evs, RunResult.fuelOut)

/-- Embedding of `main` (lines 189-258); named `main_run` because Lean
reserves `main` for an entry point. -/
def main_run (sv : Servers) (sanitize render : Str → Str) (fuel : Nat) :
    List FileEvent × RunResult :=
  match (get_learning_programs sv.lp fuel).2 with
  | Outcome.abort => ([], RunResult.abort)
  | Outcome.fuelOut => ([], RunResult.fuelOut)
  | Outcome.ok programs => main_loop sv sanitize render fuel programs []

/-! ## Spec-side description of the assembled document

The specification describes the flat document as a concatenation of blocks
over sections and materials in `order`-sorted traversal; these definitions
follow the spec's words and are compared with the embedding of the code. -/

/-- Spec-side heading shift of one line: the line-leading run of `'#'`
characters, when there is one, is extended by exactly one `'#'`. -/
def specShiftLine (line : Str) : Str :=
  let run := line.takeWhile (fun c => c == '#')
  if run = [] then line else run ++ ['#'] ++ line.dropWhile (fun c => c == '#')

/-- Spec-side heading shift of a longread body: every line-leading run of
`'#'` characters is extended by exactly one `'#'`. -/
def specShiftBody (body : Str) : Str :=
  joinNl ((splitNl body).map specShiftLine)

/-- The material's longread body according to the spec: the content of the
(first) entry of `longreads_content` carrying the material's id, empty
when there is none (the claims assume there always is one). -/
def spec_body (longreads_content : List ContentEntry) (id : Nat) : Str :=
  ((longreads_content.find? (fun x => x.id == id)).map (fun x => x.content)).getD []

/-- The block the spec ascribes to one material:
`'# ' + name + '\n\n\n' + shifted body + '\n'`. -/
def specBlock (longreads_content : List ContentEntry) (m : Material) : Str :=
  "# ".toList ++ m.name ++ "\n\n\n".toList
    ++ specShiftBody (spec_body longreads_content m.id) ++ "\n".toList

/-- The materials of a program in document order: sections sorted ascending
by `order`, within each section materials sorted ascending by `order`. -/
def materials_in_order (sections : List Section) : List Material :=
  (sortedByKey (fun s => s.order) sections).flatMap
    (fun s => sortedByKey (fun m => m.order) s.materials)

/-- The flat document as the spec describes it: the concatenation of the
material blocks over the order-sorted traversal. -/
def specAssembledDoc (sections : List Section)
    (longreads_content : List ContentEntry) : Str :=
  (materials_in_order sections).flatMap (specBlock longreads_content)

/-- A line that renders as a level-1 ATX heading: it starts with exactly
one `'#'`. -/
def isLevel1 (l : Str) : Bool :=
  l.take 1 == ['#'] && l.take 2 != ['#', '#']

/-! ## Sorting lemmas -/

theorem mem_insertSorted {α : Type} (key : α → Int) (x y : α) (l : List α) :
    y ∈ insertSorted key x l ↔ y = x ∨ y ∈ l := by
  induction l with
  | nil => simp [insertSorted]
  | cons z zs ih =>
      by_cases h : key x ≤ key z
      · simp [insertSorted, h]
      · simp [insertSorted, h, ih]
        tauto

theorem mem_sortedByKey {α : Type} (key : α → Int) (x : α) (l : List α) :
    x ∈ sortedByKey key l ↔ x ∈ l := by
  induction l with
  | nil => simp [sortedByKey]
  | cons z zs ih => simp [sortedByKey, mem_insertSorted, ih]

/-! ## Heading-shift lemmas -/

theorem shiftLine_one_eq_specShiftLine (l : Str) :
    shiftLine 1 l = specShiftLine l := by
  simp only [shiftLine, specShiftLine, List.replicate]
  rcases h : l.takeWhile (fun c => c == '#') with _ | ⟨c, cs⟩ <;> simp [h]

theorem not_nl_shiftLine (level : Nat) (l : Str) (h : '\n' ∉ l) :
    '\n' ∉ shiftLine level l := by
  simp only [shiftLine]
  split
  · exact h
  · intro hmem
    rcases List.mem_append.mp hmem with h1 | h1
    · rcases List.mem_append.mp h1 with h2 | h2
      · exact h ((List.takeWhile_sublist _).mem h2)
      · have := List.eq_of_mem_replicate h2
        simp at this
    · exact h ((List.dropWhile_sublist _).mem h1)

theorem splitNl_shift_headings (md : Str) (level : Nat) :
    splitNl (shift_headings md level) = (splitNl md).map (shiftLine level) := by
  refine splitNl_joinNl _ (by simp [splitNl_ne_nil]) ?_
  intro l hl
  rcases List.mem_map.mp hl with ⟨t, ht, rfl⟩
  exact not_nl_shiftLine level t (not_mem_of_mem_splitNl md t ht)

theorem shift_headings_one_eq_specShiftBody (md : Str) :
    shift_headings md 1 = specShiftBody md := by
  simp only [shift_headings, specShiftBody]
  congr 1
  exact List.map_congr_left (fun l _ => shiftLine_one_eq_specShiftLine l)

/-! ## Assembly lemmas -/

theorem spec_body_eq_of_find (content : List ContentEntry) (id : Nat)
    (text : Str) (h : find_content content id = some text) :
    spec_body content id = text := by
  simp only [spec_body, find_content] at *
  rw [h]
  rfl

theorem create_materials_md_ok (content : List ContentEntry) (acc : Str)
    (ms : List Material) (h : ∀ m ∈ ms, (find_content content m.id).isSome) :
    create_materials_md content acc ms
      = some (acc ++ ms.flatMap (specBlock content)) := by
  induction ms generalizing acc with
  | nil => simp [create_materials_md]
  | cons m rest ih =>
      rcases Option.isSome_iff_exists.mp (h m (by simp)) with ⟨text, htext⟩
      simp only [create_materials_md, htext]
      rw [ih _ (fun x hx => h x (by simp [hx]))]
      have hblock : specBlock content m
          = ('#' :: ' ' :: m.name)
            ++ (('\n' :: '\n' :: '\n' :: shift_headings text 1) ++ ['\n']) := by
        simp [specBlock, spec_body_eq_of_find content m.id text htext,
          shift_headings_one_eq_specShiftBody]
      simp [hblock, List.append_assoc]

theorem create_materials_md_isSome (content : List ContentEntry) (acc : Str)
    (ms : List Material) :
    (create_materials_md content acc ms).isSome
      ↔ ∀ m ∈ ms, (find_content content m.id).isSome := by
  induction ms generalizing acc with
  | nil => simp [create_materials_md]
  | cons m rest ih =>
      cases h : find_content content m.id with
      | none => simp [create_materials_md, h]
      | some text => simp [create_materials_md, h, ih]

theorem create_sections_md_ok (content : List ContentEntry) (acc : Str)
    (ss : List Section)
    (h : ∀ s ∈ ss, ∀ m ∈ s.materials, (find_content content m.id).isSome) :
    create_sections_md content acc ss
      = some (acc ++ ss.flatMap (fun s =>
          (sortedByKey (fun m => m.order) s.materials).flatMap
            (specBlock content))) := by
  induction ss generalizing acc with
  | nil => simp [create_sections_md]
  | cons s rest ih =>
      have hs : ∀ m ∈ sortedByKey (fun m => m.order) s.materials,
          (find_content content m.id).isSome := by
        intro m hm
        exact h s (by simp) m ((mem_sortedByKey _ m _).mp hm)
      simp only [create_sections_md,
        create_materials_md_ok content acc _ hs]
      rw [ih _ (fun x hx => h x (by simp [hx]))]
      simp [List.append_assoc]

theorem create_sections_md_isSome (content : List ContentEntry) (acc : Str)
    (ss : List Section) :
    (create_sections_md content acc ss).isSome
      ↔ ∀ s ∈ ss, ∀ m ∈ s.materials, (find_content content m.id).isSome := by
  induction ss generalizing acc with
  | nil => simp [create_sections_md]
  | cons s rest ih =>
      cases h : create_materials_md content acc
          (sortedByKey (fun m => m.order) s.materials) with
      | none =>
          have hnone : ¬ ∀ m ∈ sortedByKey (fun m => m.order) s.materials,
              (find_content content m.id).isSome := by
            intro hall
            have := (create_materials_md_isSome content acc _).mpr hall
            simp [h] at this
          simp only [create_sections_md, h]
          constructor
          · intro hfalse
            simp at hfalse
          · intro hall
            exact absurd (fun m hm => hall s (by simp) m
              ((mem_sortedByKey _ m _).mp hm)) hnone
      | some acc2 =>
          have hall : ∀ m ∈ s.materials, (find_content content m.id).isSome := by
            have := (create_materials_md_isSome content acc
              (sortedByKey (fun m => m.order) s.materials)).mp (by simp [h])
            intro m hm
            exact this m ((mem_sortedByKey _ m _).mpr hm)
          simp only [create_sections_md, h, ih]
          constructor
          · intro hrest x hx
            rcases List.mem_cons.mp hx with rfl | hx2
            · exact hall
            · exact hrest x hx2
          · intro hfull x hx
            exact hfull x (by simp [hx])

theorem create_program_content_md_spec (sections : List Section)
    (content : List ContentEntry)
    (h : ∀ s ∈ sections, ∀ m ∈ s.materials, (find_content content m.id).isSome) :
    create_program_content_md (sortedByKey (fun s => s.order) sections) content
      = some (specAssembledDoc sections content) := by
  have hsorted : ∀ s ∈ sortedByKey (fun s => s.order) sections,
      ∀ m ∈ s.materials, (find_content content m.id).isSome :=
    fun s hs => h s ((mem_sortedByKey _ s _).mp hs)
  rw [create_program_content_md, create_sections_md_ok content [] _ hsorted]
  congr 1
  rw [specAssembledDoc, materials_in_order, List.flatMap_assoc]
  rfl

/-! ## Level-1 heading lemmas -/

theorem isLevel1_heading (name : Str) : isLevel1 ('#' :: ' ' :: name) = true := by
  simp [isLevel1, List.take]

theorem isLevel1_nil : isLevel1 [] = false := rfl

theorem shiftLine_one_take_two (l : Str) (h : l.take 1 = ['#']) :
    (shiftLine 1 l).take 2 = ['#', '#'] := by
  cases l with
  | nil => simp at h
  | cons c t =>
      have hc : c = '#' := by simpa [List.take] using h
      subst hc
      rw [show shiftLine 1 ('#' :: t)
          = ('#' :: t.takeWhile (fun c => c == '#')) ++ List.replicate 1 '#'
            ++ ('#' :: t).dropWhile (fun c => c == '#') from rfl]
      cases htw : t.takeWhile (fun c => c == '#') with
      | nil => simp [List.take]
      | cons d ds =>
          have hd : d = '#' := by
            have hmem : d ∈ t.takeWhile (fun c => c == '#') := by
              simp [htw]
            have := List.mem_takeWhile_imp hmem
            simpa using this
          subst hd
          simp [List.take]

theorem take_one_of_take_two (l : Str) (h : l.take 2 = ['#', '#']) :
    l.take 1 = ['#'] := by
  cases l with
  | nil => simp at h
  | cons c t =>
      simp [List.take] at h ⊢
      exact h.1

theorem isLevel1_shiftLine (l : Str) : isLevel1 (shiftLine 1 l) = false := by
  by_cases h : l.take 1 = ['#']
  · have h2 := shiftLine_one_take_two l h
    simp [isLevel1, h2, take_one_of_take_two _ h2]
  · cases l with
    | nil => simp [shiftLine, isLevel1]
    | cons c t =>
        have hc : ¬ c = '#' := by
          intro hc
          exact h (by simp [hc, List.take])
        have hrun : (c :: t).takeWhile (fun c => c == '#') = [] := by
          simp [List.takeWhile_cons, hc]
        simp [shiftLine, hrun, isLevel1, List.take, hc]

theorem isLevel1_specShiftLine (l : Str) : isLevel1 (specShiftLine l) = false := by
  rw [← shiftLine_one_eq_specShiftLine]
  exact isLevel1_shiftLine l

/-! ## Line decomposition of the assembled document -/

theorem splitNl_specShiftBody (md : Str) :
    splitNl (specShiftBody md) = (splitNl md).map specShiftLine := by
  rw [← shift_headings_one_eq_specShiftBody, splitNl_shift_headings]
  exact List.map_congr_left (fun l _ => shiftLine_one_eq_specShiftLine l)

theorem splitNl_specBlock_append (content : List ContentEntry) (m : Material)
    (rest : Str) (hname : '\n' ∉ m.name) :
    splitNl (specBlock content m ++ rest)
      = ('#' :: ' ' :: m.name) :: [] :: []
          :: ((splitNl (spec_body content m.id)).map specShiftLine
              ++ splitNl rest) := by
  have h1 : specBlock content m ++ rest
      = ('#' :: ' ' :: m.name)
          ++ '\n' :: ('\n' :: '\n'
            :: (specShiftBody (spec_body content m.id) ++ '\n' :: rest)) := by
    simp [specBlock, List.append_assoc]
  have hhead : '\n' ∉ ('#' :: ' ' :: m.name) := by
    simp [hname]
  rw [h1, splitNl_append_nl, splitNl_of_not_mem _ hhead]
  have h2 : splitNl ('\n' :: ('\n'
      :: (specShiftBody (spec_body content m.id) ++ '\n' :: rest)))
      = [] :: [] :: splitNl (specShiftBody (spec_body content m.id) ++ '\n' :: rest) := by
    simp [splitNl]
  rw [h2, splitNl_append_nl, splitNl_specShiftBody]
  rfl

theorem splitNl_flatMap_blocks (content : List ContentEntry)
    (ms : List Material) (hnames : ∀ m ∈ ms, '\n' ∉ m.name) :
    splitNl (ms.flatMap (specBlock content))
      = ms.flatMap (fun m => ('#' :: ' ' :: m.name) :: [] :: []
          :: (splitNl (spec_body content m.id)).map specShiftLine) ++ [[]] := by
  induction ms with
  | nil => simp [splitNl]
  | cons m rest ih =>
      rw [List.flatMap_cons,
        splitNl_specBlock_append content m _ (hnames m (by simp)),
        ih (fun x hx => hnames x (by simp [hx])), List.flatMap_cons]
      simp [List.append_assoc]

theorem filter_isLevel1_blocks (content : List ContentEntry)
    (ms : List Material) :
    (ms.flatMap (fun m => ('#' :: ' ' :: m.name) :: [] :: []
        :: (splitNl (spec_body content m.id)).map specShiftLine)
      ++ [[]]).filter isLevel1
      = ms.map (fun m => '#' :: ' ' :: m.name) := by
  induction ms with
  | nil => simp [isLevel1_nil]
  | cons m rest ih =>
      rw [List.flatMap_cons, List.append_assoc, List.filter_append]
      rw [List.filter_cons_of_pos (isLevel1_heading m.name),
        List.filter_cons_of_neg (by simp [isLevel1_nil]),
        List.filter_cons_of_neg (by simp [isLevel1_nil])]
      have hmap : ((splitNl (spec_body content m.id)).map specShiftLine).filter
          isLevel1 = [] := by
        rw [List.filter_eq_nil_iff]
        intro a ha
        rcases List.mem_map.mp ha with ⟨t, _, rfl⟩
        simp [isLevel1_specShiftLine]
      rw [List.filter_append, hmap]
      simp only [List.nil_append, List.map_cons]
      rw [← List.filter_append, ih]
      rfl

/-! ## Pagination loop lemmas -/

theorem pagedLoop_log {ρ α : Type} (server : Nat → Option ρ) (pc : ρ → Nat)
    (step : α → ρ → α) :
    ∀ fuel p acc log, ∃ k,
      (pagedLoop server pc step fuel p acc log).1 = log ++ List.range' p k
      ∧ ((pagedLoop server pc step fuel p acc log).2 = Outcome.abort →
          1 ≤ k ∧ server (p + k - 1) = none) := by
  intro fuel
  induction fuel with
  | zero =>
      intro p acc log
      exact ⟨0, by simp [pagedLoop], by simp [pagedLoop]⟩
  | succ f ih =>
      intro p acc log
      cases hs : server p with
      | none =>
          refine ⟨1, ?_, ?_⟩
          · simp [pagedLoop, hs, List.range'_succ]
          · intro _
            refine ⟨le_refl 1, ?_⟩
            simpa using hs
      | some resp =>
          by_cases hlt : p < pc resp
          · rcases ih (p + 1) (step acc resp) (log ++ [p]) with ⟨k, hk1, hk2⟩
            have hstep : pagedLoop server pc step (f + 1) p acc log
                = pagedLoop server pc step f (p + 1) (step acc resp)
                    (log ++ [p]) := by
              simp [pagedLoop, hs, hlt]
            refine ⟨k + 1, ?_, ?_⟩
            · rw [hstep, hk1, List.range'_succ]
              simp
            · intro hab
              rw [hstep] at hab
              rcases hk2 hab with ⟨hk, hsrv⟩
              refine ⟨by omega, ?_⟩
              have harith : p + (k + 1) - 1 = p + 1 + k - 1 := by omega
              rw [harith]
              exact hsrv
          · refine ⟨1, ?_, ?_⟩
            · simp [pagedLoop, hs, hlt, List.range'_succ]
            · intro hab
              simp [pagedLoop, hs, hlt] at hab

theorem pagedLoop_run {ρ α : Type} (server : Nat → Option ρ) (pc : ρ → Nat)
    (step : α → ρ → α) (resps : Nat → ρ) (n : Nat)
    (hresp : ∀ q, server q = some (resps q))
    (hpc : ∀ q, pc (resps q) = n) :
    ∀ fuel p acc log, p ≤ n → n + 1 - p ≤ fuel →
      pagedLoop server pc step fuel p acc log
        = (log ++ List.range' p (n + 1 - p),
           Outcome.ok (((List.range' p (n + 1 - p)).map resps).foldl step acc)) := by
  intro fuel
  induction fuel with
  | zero =>
      intro p acc log hp hf
      omega
  | succ f ih =>
      intro p acc log hp hf
      have hs := hresp p
      by_cases hlt : p < n
      · have hrec := ih (p + 1) (step acc (resps p)) (log ++ [p])
          (by omega) (by omega)
        have hstep : pagedLoop server pc step (f + 1) p acc log
            = pagedLoop server pc step f (p + 1) (step acc (resps p))
                (log ++ [p]) := by
          simp [pagedLoop, hs, hpc, hlt]
        rw [hstep, hrec]
        have hn : n + 1 - p = (n + 1 - (p + 1)) + 1 := by omega
        rw [hn, List.range'_succ]
        simp
      · have h1 : n + 1 - p = 1 := by omega
        have hstop : pagedLoop server pc step (f + 1) p acc log
            = (log ++ [p], Outcome.ok (step acc (resps p))) := by
          simp [pagedLoop, hs, hpc, hlt]
        rw [hstop, h1, List.range'_succ]
        simp [List.range']

/-! ## Dictionary merge lemmas -/

/-- The dictionary built from a list of program objects (the page-order
merge of `get_learning_programs`). -/
def merge_learning_programs (progs : List ProgJson)
    (acc : List (Nat × ProgramVal)) : List (Nat × ProgramVal) :=
  progs.foldl (fun ps p => dictInsert p.id (extract_program p) ps) acc

theorem dictInsert_append {α : Type} (k : Nat) (v : α) (l : List (Nat × α))
    (h : k ∉ l.map Prod.fst) : dictInsert k v l = l ++ [(k, v)] := by
  induction l with
  | nil => rfl
  | cons kv rest ih =>
      simp only [List.map_cons, List.mem_cons, not_or] at h
      rw [dictInsert, if_neg (fun he => h.1 he.symm), ih h.2]
      rfl

theorem foldl_pages_merge (pages : List LPResp)
    (acc : List (Nat × ProgramVal)) :
    pages.foldl (fun programs r => r.learning_programs.foldl
        (fun ps p => dictInsert p.id (extract_program p) ps) programs) acc
      = merge_learning_programs
          (pages.flatMap (fun r => r.learning_programs)) acc := by
  induction pages generalizing acc with
  | nil => rfl
  | cons r rest ih =>
      simp [merge_learning_programs, List.foldl_append, ih]

theorem foldl_append_extract {ρ β : Type} (e : ρ → List β) (pages : List ρ)
    (acc : List β) :
    pages.foldl (fun a r => a ++ e r) acc = acc ++ (pages.map e).flatten := by
  induction pages generalizing acc with
  | nil => simp
  | cons r rest ih => simp [ih]

theorem merge_learning_programs_nodup (progs : List ProgJson)
    (acc : List (Nat × ProgramVal))
    (hnd : (progs.map (fun p => p.id)).Nodup)
    (hdisj : ∀ p ∈ progs, p.id ∉ acc.map Prod.fst) :
    merge_learning_programs progs acc
      = acc ++ progs.map (fun p => (p.id, extract_program p)) := by
  induction progs generalizing acc with
  | nil => simp [merge_learning_programs]
  | cons p rest ih =>
      have hins : dictInsert p.id (extract_program p) acc
          = acc ++ [(p.id, extract_program p)] :=
        dictInsert_append _ _ _ (hdisj p (by simp))
      have hmerge : merge_learning_programs (p :: rest) acc
          = merge_learning_programs rest (acc ++ [(p.id, extract_program p)]) := by
        simp [merge_learning_programs, hins]
      have hnd2 : (∀ x ∈ rest, ¬ x.id = p.id)
          ∧ (List.map (fun q => q.id) rest).Nodup := by
        simpa using hnd
      rw [hmerge, ih]
      · simp
      · exact hnd2.2
      · intro x hx
        simp only [List.map_append, List.mem_append]
        rintro (hxa | hxp)
        · exact hdisj x (by simp [hx]) hxa
        · have hxid : x.id = p.id := by simpa using hxp
          exact hnd2.1 x hx hxid

/-! ## Shape of the file-write trace -/

/-- Traces consisting of complete per-program groups: each fully processed
program contributes exactly its `.md` write, its `.htm` write and its
`.pdf` conversion, under one filename. -/
inductive TripleGrouped : List FileEvent → Prop where
  | nil : TripleGrouped []
  | cons (f d h : Str) (rest : List FileEvent) : TripleGrouped rest →
      TripleGrouped (FileEvent.writeMd f d :: FileEvent.writeHtml f h
        :: FileEvent.writePdf f :: rest)

theorem tripleGrouped_append (a b : List FileEvent)
    (ha : TripleGrouped a) (hb : TripleGrouped b) : TripleGrouped (a ++ b) := by
  induction ha with
  | nil => exact hb
  | cons f d h rest _ ih => exact TripleGrouped.cons f d h _ ih

theorem process_program_events (sv : Servers) (sanitize render : Str → Str)
    (fuel : Nat) (program : ProgramVal) :
    TripleGrouped (process_program sv sanitize render fuel program).1 := by
  cases h1 : (get_longread_ids sv.cr program fuel).2 with
  | abort =>
      simp only [process_program, h1]
      exact TripleGrouped.nil
  | fuelOut =>
      simp only [process_program, h1]
      exact TripleGrouped.nil
  | ok longreads_ids =>
      cases h2 : (get_longreads_uuids sv.titles longreads_ids fuel).2 with
      | abort =>
          simp only [process_program, h1, h2]
          exact TripleGrouped.nil
      | fuelOut =>
          simp only [process_program, h1, h2]
          exact TripleGrouped.nil
      | ok longreads =>
          cases h3 : fetch_longreads_content sv.page longreads [] with
          | none =>
              simp only [process_program, h1, h2, h3]
              exact TripleGrouped.nil
          | some longreads_content =>
              cases h4 : create_program_content_md
                  (sortedByKey (fun s => s.order)
                    (filter_longreads program longreads_ids).sections)
                  longreads_content with
              | none =>
                  simp only [process_program, h1, h2, h3, h4]
                  exact TripleGrouped.nil
              | some md =>
                  simp only [process_program, h1, h2, h3, h4]
                  exact TripleGrouped.cons _ _ _ _ TripleGrouped.nil

theorem main_loop_events (sv : Servers) (sanitize render : Str → Str)
    (fuel : Nat) :
    ∀ (progs : List (Nat × ProgramVal)) (events : List FileEvent),
      TripleGrouped events →
      TripleGrouped (main_loop sv sanitize render fuel progs events).1 := by
  intro progs
  induction progs with
  | nil =>
      intro events he
      exact he
  | cons entry rest ih =>
      intro events he
      rw [main_loop]
      have hp := process_program_events sv sanitize render fuel entry.2
      rcases hpp : process_program sv sanitize render fuel entry.2 with ⟨evs, r⟩
      rw [hpp] at hp
      cases r with
      | done => exact ih _ (tripleGrouped_append _ _ he hp)
      | abort => exact tripleGrouped_append _ _ he hp
      | crash => exact tripleGrouped_append _ _ he hp
      | fuelOut => exact tripleGrouped_append _ _ he hp

/-! ## Request-log helper -/

theorem pagedLoop_requests {ρ α : Type} (server : Nat → Option ρ) (pc : ρ → Nat)
    (step : α → ρ → α) (fuel : Nat) (init : α) :
    (pagedLoop server pc step fuel 1 init []).1
        = List.range' 1 (pagedLoop server pc step fuel 1 init []).1.length
      ∧ (pagedLoop server pc step fuel 1 init []).1.Nodup
      ∧ ((pagedLoop server pc step fuel 1 init []).2 = Outcome.abort →
          server ((pagedLoop server pc step fuel 1 init []).1.length) = none) := by
  rcases pagedLoop_log server pc step fuel 1 init [] with ⟨k, h1, h2⟩
  rw [h1]
  simp only [List.nil_append, List.length_range']
  refine ⟨trivial, List.nodup_range' 1 k, ?_⟩
  intro hab
  rcases h2 hab with ⟨hk, hsrv⟩
  have : 1 + k - 1 = k := by omega
  rw [this] at hsrv
  exact hsrv

theorem find_content_isSome (content : List ContentEntry) (id : Nat) :
    (find_content content id).isSome ↔ ∃ e ∈ content, e.id = id := by
  simp [find_content, List.find?_isSome]

/-! ## Claim theorems -/

/-- C2: for every HTTP request issued by any of the four fetch operations,
a `RequestException` (modelled as a `none` server answer) makes the
operation raise `SystemExit` at once: the request log of each operation
lists pages `1, 2, ...` in ascending order without a duplicate (so no
request is ever retried), and when the outcome is the `SystemExit` abort
the last logged request is exactly the failing one, with nothing issued
after it.  `get_longread_content` issues its single request and aborts
exactly when that request fails. -/
theorem C2_http_failure_aborts (lpS : Nat → Option LPResp)
    (crS : List Nat → Nat → Option CRResp)
    (tS : List Nat → Nat → Option TitlesResp)
    (pS : Nat → Str → Option PageResp)
    (program : ProgramVal) (ids : List Nat) (lr : Longread) (fuel : Nat) :
    ((get_learning_programs lpS fuel).1
        = List.range' 1 (get_learning_programs lpS fuel).1.length
      ∧ (get_learning_programs lpS fuel).1.Nodup
      ∧ ((get_learning_programs lpS fuel).2 = Outcome.abort →
          lpS ((get_learning_programs lpS fuel).1.length) = none))
    ∧ ((get_longread_ids crS program fuel).1
        = List.range' 1 (get_longread_ids crS program fuel).1.length
      ∧ (get_longread_ids crS program fuel).1.Nodup
      ∧ ((get_longread_ids crS program fuel).2 = Outcome.abort →
          crS (program_material_ids program)
            ((get_longread_ids crS program fuel).1.length) = none))
    ∧ ((get_longreads_uuids tS ids fuel).1
        = List.range' 1 (get_longreads_uuids tS ids fuel).1.length
      ∧ (get_longreads_uuids tS ids fuel).1.Nodup
      ∧ ((get_longreads_uuids tS ids fuel).2 = Outcome.abort →
          tS ids ((get_longreads_uuids tS ids fuel).1.length) = none))
    ∧ ((get_longread_content pS lr).1 = [(lr.id, lr.uuid)]
      ∧ ((get_longread_content pS lr).2 = Outcome.abort
          ↔ pS lr.id lr.uuid = none)) := by
  refine ⟨?_, ?_, ?_, ?_⟩
  · exact pagedLoop_requests lpS _ _ fuel []
  · exact pagedLoop_requests (crS (program_material_ids program)) _ _ fuel []
  · exact pagedLoop_requests (tS ids) _ _ fuel []
  · cases h : pS lr.id lr.uuid with
    | none => simp [get_longread_content, h]
    | some resp => simp [get_longread_content, h]

/-- C1: under the precondition that every material has a content entry,
the document assembled by `create_program_content_md` from the
`order`-sorted sections (as `main` passes them) is exactly the
concatenation, over sections sorted by `order` and materials sorted by
`order` within each section, of the blocks
`'# ' + name + '\n\n\n' + body with heading runs extended by one '#' + '\n'`. -/
theorem C1_assembled_document (sections : List Section)
    (longreads_content : List ContentEntry)
    (hfound : ∀ s ∈ sections, ∀ m ∈ s.materials,
      ∃ e ∈ longreads_content, e.id = m.id) :
    create_program_content_md (sortedByKey (fun s => s.order) sections)
        longreads_content
      = some (specAssembledDoc sections longreads_content) :=
  create_program_content_md_spec sections longreads_content
    (fun s hs m hm => (find_content_isSome longreads_content m.id).mpr
      (hfound s hs m hm))

/-- C8: `create_program_content_md` succeeds exactly when every material id
occurring in the given sections has a matching entry in
`longreads_content`; a missing entry makes the `None` lookup reach
`shift_headings` and raise (the `none` result), and under the precondition
that branch is unreachable. -/
theorem C8_lookup_totality (sections : List Section)
    (longreads_content : List ContentEntry) :
    (create_program_content_md sections longreads_content).isSome
      ↔ ∀ s ∈ sections, ∀ m ∈ s.materials,
          ∃ e ∈ longreads_content, e.id = m.id := by
  rw [create_program_content_md, create_sections_md_isSome]
  constructor
  · intro h s hs m hm
    exact (find_content_isSome longreads_content m.id).mp (h s hs m hm)
  · intro h s hs m hm
    exact (find_content_isSome longreads_content m.id).mpr (h s hs m hm)

/-- C9: in the assembled document, every line of a shifted longread body
that starts with `'#'` in fact starts with `'##'`, and the level-1 heading
lines (leading run of exactly one `'#'`) are exactly the `'# ' + name`
lines inserted for the materials, in document order; material names are
assumed newline-free so that each inserted heading occupies one line. -/
theorem C9_level1_headings (sections : List Section)
    (content : List ContentEntry) (doc : Str)
    (hfound : ∀ s ∈ sections, ∀ m ∈ s.materials, ∃ e ∈ content, e.id = m.id)
    (hnames : ∀ s ∈ sections, ∀ m ∈ s.materials, '\n' ∉ m.name)
    (hdoc : create_program_content_md (sortedByKey (fun s => s.order) sections)
        content = some doc) :
    splitNl doc
      = (materials_in_order sections).flatMap (fun m =>
          ('#' :: ' ' :: m.name) :: [] :: []
            :: (splitNl (spec_body content m.id)).map specShiftLine) ++ [[]]
    ∧ (∀ l : Str, l.take 1 = ['#'] → (specShiftLine l).take 2 = ['#', '#'])
    ∧ (splitNl doc).filter isLevel1
        = (materials_in_order sections).map (fun m => '#' :: ' ' :: m.name) := by
  have hspec := create_program_content_md_spec sections content
    (fun s hs m hm => (find_content_isSome content m.id).mpr (hfound s hs m hm))
  rw [hdoc] at hspec
  have hdoc2 : doc = specAssembledDoc sections content := Option.some.inj hspec
  have hnames2 : ∀ m ∈ materials_in_order sections, '\n' ∉ m.name := by
    intro m hm
    simp only [materials_in_order] at hm
    rcases List.mem_flatMap.mp hm with ⟨s, hs, hms⟩
    exact hnames s ((mem_sortedByKey _ s _).mp hs) m
      ((mem_sortedByKey _ m _).mp hms)
  subst hdoc2
  rw [specAssembledDoc, splitNl_flatMap_blocks content _ hnames2]
  refine ⟨rfl, ?_, ?_⟩
  · intro l hl
    rw [← shiftLine_one_eq_specShiftLine]
    exact shiftLine_one_take_two l hl
  · exact filter_isLevel1_blocks content _

/-- C10: `get_config_data` raises its descriptive exception exactly when
the requested section is absent; with the section present it returns the
value found under the requested option name, and with the name absent it
raises a bare `KeyError`, not the descriptive exception. -/
theorem C10_config_errors (config : List (Str × List (Str × Str)))
    (filename sect name : Str) :
    (get_config_data config filename sect name
        = Except.error (ConfigError.sectionNotFound sect filename)
      ↔ ∀ entry ∈ config, ¬ entry.1 = sect)
    ∧ (∀ entry, config.find? (fun s => s.1 == sect) = some entry →
        (∀ kv, entry.2.find? (fun kv => kv.1 == name) = some kv →
          get_config_data config filename sect name = Except.ok kv.2)
        ∧ (entry.2.find? (fun kv => kv.1 == name) = none →
          get_config_data config filename sect name
            = Except.error (ConfigError.keyError name))) := by
  constructor
  · cases hfind : config.find? (fun s => s.1 == sect) with
    | none =>
        simp only [get_config_data, hfind]
        constructor
        · intro _ entry hentry
          have := List.find?_eq_none.mp hfind entry hentry
          simpa using this
        · intro _
          trivial
    | some entry =>
        constructor
        · intro habs
          cases hkv : entry.2.find? (fun kv => kv.1 == name) with
          | none => simp [get_config_data, hfind, hkv] at habs
          | some kv => simp [get_config_data, hfind, hkv] at habs
        · intro hall
          have hmem := List.mem_of_find?_eq_some hfind
          have hp := List.find?_some hfind
          exact absurd (by simpa using hp) (hall entry hmem)
  · intro entry hfind
    constructor
    · intro kv hkv
      simp [get_config_data, hfind, hkv]
    · intro hkv
      simp [get_config_data, hfind, hkv]

/-- C6: when every response of a paginated fetch reports the same
`pages_count` `n ≥ 1`, the loop issues exactly the requests for pages
`1, …, n` in ascending order and returns the page-order merge of the items
extracted from each page: the id-keyed dictionary merge for
`get_learning_programs`, the concatenation of the filtered ids for
`get_longread_ids`, and the concatenation of the id/uuid pairs for
`get_longreads_uuids`. -/
theorem C6_paginated_merge (lpS : Nat → Option LPResp) (lpR : Nat → LPResp)
    (crS : List Nat → Nat → Option CRResp) (crR : Nat → CRResp)
    (tS : List Nat → Nat → Option TitlesResp) (tR : Nat → TitlesResp)
    (program : ProgramVal) (ids : List Nat) (n fuel : Nat)
    (hlp : ∀ q, lpS q = some (lpR q))
    (hlpn : ∀ q, (lpR q).pages_count = n)
    (hcr : ∀ q, crS (program_material_ids program) q = some (crR q))
    (hcrn : ∀ q, (crR q).pages_count = n)
    (ht : ∀ q, tS ids q = some (tR q))
    (htn : ∀ q, (tR q).pages_count = n)
    (hn : 1 ≤ n) (hfuel : n ≤ fuel) :
    get_learning_programs lpS fuel
      = (List.range' 1 n, Outcome.ok (merge_learning_programs
          (((List.range' 1 n).map lpR).flatMap
            (fun r => r.learning_programs)) []))
    ∧ get_longread_ids crS program fuel
      = (List.range' 1 n, Outcome.ok
          ((((List.range' 1 n).map crR).map (fun r =>
            (r.materials.filter (fun x => x.type == "longread".toList)).map
              (fun y => y.id))).flatten))
    ∧ get_longreads_uuids tS ids fuel
      = (List.range' 1 n, Outcome.ok
          ((((List.range' 1 n).map tR).map (fun r =>
            r.page_titles.map (fun x =>
              ({ id := x.longread_id, uuid := x.uuid } : Longread)))).flatten)) := by
  have harith : n + 1 - 1 = n := by omega
  refine ⟨?_, ?_, ?_⟩
  · have h := pagedLoop_run lpS (fun r => r.pages_count)
      (fun programs r => r.learning_programs.foldl
        (fun ps p => dictInsert p.id (extract_program p) ps) programs)
      lpR n hlp hlpn fuel 1 [] [] hn (by omega)
    rw [harith] at h
    rw [get_learning_programs, h, foldl_pages_merge]
    simp
  · have h := pagedLoop_run (crS (program_material_ids program))
      (fun r => r.pages_count)
      (fun ids2 r => ids2 ++ (r.materials.filter
        (fun x => x.type == "longread".toList)).map (fun y => y.id))
      crR n hcr hcrn fuel 1 [] [] hn (by omega)
    rw [harith] at h
    rw [get_longread_ids, h, foldl_append_extract]
    simp
  · have h := pagedLoop_run (tS ids) (fun r => r.pages_count)
      (fun lrs r => lrs ++ r.page_titles.map
        (fun x => ({ id := x.longread_id, uuid := x.uuid } : Longread)))
      tR n ht htn fuel 1 [] [] hn (by omega)
    rw [harith] at h
    rw [get_longreads_uuids, h, foldl_append_extract]
    simp

/-- C5 (amended): per-page uniqueness of program ids is not enough, since
`programs[program['id']] = …` overwrites across pages; when the program ids
are unique across ALL fetched pages, the merged dictionary keeps exactly
one entry per fetched program, in page order, carrying that program's
extracted name, order and id/name/order-reduced sections and materials. -/
theorem C5_amended_unique_across_pages (lpS : Nat → Option LPResp)
    (lpR : Nat → LPResp) (n fuel : Nat)
    (hlp : ∀ q, lpS q = some (lpR q))
    (hlpn : ∀ q, (lpR q).pages_count = n)
    (hn : 1 ≤ n) (hfuel : n ≤ fuel)
    (huniq : ((((List.range' 1 n).map lpR).flatMap
        (fun r => r.learning_programs)).map (fun p => p.id)).Nodup) :
    (get_learning_programs lpS fuel).2
      = Outcome.ok ((((List.range' 1 n).map lpR).flatMap
          (fun r => r.learning_programs)).map
            (fun p => (p.id, extract_program p))) := by
  have harith : n + 1 - 1 = n := by omega
  have h := pagedLoop_run lpS (fun r => r.pages_count)
    (fun programs r => r.learning_programs.foldl
      (fun ps p => dictInsert p.id (extract_program p) ps) programs)
    lpR n hlp hlpn fuel 1 [] [] hn (by omega)
  rw [harith] at h
  rw [get_learning_programs, h]
  simp only []
  rw [foldl_pages_merge, merge_learning_programs_nodup _ _ huniq
    (by intro p hp; simp)]
  simp

/-- C7: `get_longread_ids` returns exactly the ids of the returned
materials whose `type` is `'longread'`, in response order, and
`filter_longreads` keeps in every section exactly its materials whose id
is in that list, preserving their relative order and the section's other
fields. -/
theorem C7_longread_filtering (crS : List Nat → Nat → Option CRResp)
    (crR : Nat → CRResp) (program : ProgramVal) (n fuel : Nat)
    (hcr : ∀ q, crS (program_material_ids program) q = some (crR q))
    (hcrn : ∀ q, (crR q).pages_count = n)
    (hn : 1 ≤ n) (hfuel : n ≤ fuel) :
    (get_longread_ids crS program fuel).2
      = Outcome.ok ((((List.range' 1 n).map crR).map (fun r =>
          (r.materials.filter (fun x => x.type == "longread".toList)).map
            (fun y => y.id))).flatten)
    ∧ (∀ (prog : ProgramVal) (ids : List Nat) (i : Nat) (s0 s1 : Section),
        prog.sections[i]? = some s0 →
        (filter_longreads prog ids).sections[i]? = some s1 →
        s1.id = s0.id ∧ s1.name = s0.name ∧ s1.order = s0.order
          ∧ s1.materials.Sublist s0.materials
          ∧ (∀ m, m ∈ s1.materials ↔ m ∈ s0.materials ∧ m.id ∈ ids))
    ∧ (∀ (prog : ProgramVal) (ids : List Nat),
        (filter_longreads prog ids).sections.length = prog.sections.length
        ∧ (filter_longreads prog ids).name = prog.name
        ∧ (filter_longreads prog ids).order = prog.order) := by
  have harith : n + 1 - 1 = n := by omega
  refine ⟨?_, ?_, ?_⟩
  · have h := pagedLoop_run (crS (program_material_ids program))
      (fun r => r.pages_count)
      (fun ids2 r => ids2 ++ (r.materials.filter
        (fun x => x.type == "longread".toList)).map (fun y => y.id))
      crR n hcr hcrn fuel 1 [] [] hn (by omega)
    rw [harith] at h
    rw [get_longread_ids, h, foldl_append_extract]
    simp
  · intro prog ids i s0 s1 h0 h1
    have hmap : (filter_longreads prog ids).sections
        = prog.sections.map (fun s =>
            { s with materials := s.materials.filter (fun x => ids.contains x.id) }) := rfl
    rw [hmap, List.getElem?_map, h0] at h1
    have hs1 : s1
        = { s0 with materials := s0.materials.filter (fun x => ids.contains x.id) } :=
      (Option.some.inj h1).symm
    subst hs1
    refine ⟨rfl, rfl, rfl, List.filter_sublist _, ?_⟩
    intro m
    simp only [List.mem_filter]
    constructor
    · rintro ⟨hm, hc⟩
      exact ⟨hm, List.elem_iff.mp hc⟩
    · rintro ⟨hm, hc⟩
      exact ⟨hm, List.elem_iff.mpr hc⟩
  · intro prog ids
    refine ⟨?_, rfl, rfl⟩
    simp [filter_longreads]

/-- C3 (amended): every run of `main` writes output files only in complete
per-program groups (the `.md`, `.htm` and `.pdf` of one program together);
in particular an aborted run never leaves a partial group for the program
being processed, although files of programs completed earlier remain. -/
theorem C3_amended_no_partial_program_files (sv : Servers)
    (sanitize render : Str → Str) (fuel : Nat) :
    TripleGrouped (main_run sv sanitize render fuel).1 := by
  cases h : (get_learning_programs sv.lp fuel).2 with
  | abort =>
      simp only [main_run, h]
      exact TripleGrouped.nil
  | fuelOut =>
      simp only [main_run, h]
      exact TripleGrouped.nil
  | ok programs =>
      simp only [main_run, h]
      exact main_loop_events sv sanitize render fuel programs []
        TripleGrouped.nil

/-- C4 (amended): only the three list-fetching endpoints are paginated,
each issuing requests for pages `1, …, n` when all responses report
`pages_count = n`; the fourth endpoint, `longreads/page`, is fetched by a
single request per id/uuid pair, carrying no page number and reading no
pagination metadata. -/
theorem C4_amended_three_paginated_endpoints (lpS : Nat → Option LPResp)
    (lpR : Nat → LPResp) (crS : List Nat → Nat → Option CRResp)
    (crR : Nat → CRResp) (tS : List Nat → Nat → Option TitlesResp)
    (tR : Nat → TitlesResp) (program : ProgramVal) (ids : List Nat)
    (n fuel : Nat)
    (hlp : ∀ q, lpS q = some (lpR q))
    (hlpn : ∀ q, (lpR q).pages_count = n)
    (hcr : ∀ q, crS (program_material_ids program) q = some (crR q))
    (hcrn : ∀ q, (crR q).pages_count = n)
    (ht : ∀ q, tS ids q = some (tR q))
    (htn : ∀ q, (tR q).pages_count = n)
    (hn : 1 ≤ n) (hfuel : n ≤ fuel) :
    (get_learning_programs lpS fuel).1 = List.range' 1 n
    ∧ (get_longread_ids crS program fuel).1 = List.range' 1 n
    ∧ (get_longreads_uuids tS ids fuel).1 = List.range' 1 n
    ∧ (∀ (pS : Nat → Str → Option PageResp) (lr : Longread),
        (get_longread_content pS lr).1 = [(lr.id, lr.uuid)]) := by
  have harith : n + 1 - 1 = n := by omega
  refine ⟨?_, ?_, ?_, ?_⟩
  · have h := pagedLoop_run lpS (fun r => r.pages_count)
      (fun programs r => r.learning_programs.foldl
        (fun ps p => dictInsert p.id (extract_program p) ps) programs)
      lpR n hlp hlpn fuel 1 [] [] hn (by omega)
    rw [harith] at h
    rw [get_learning_programs, h]
    simp
  · have h := pagedLoop_run (crS (program_material_ids program))
      (fun r => r.pages_count)
      (fun ids2 r => ids2 ++ (r.materials.filter
        (fun x => x.type == "longread".toList)).map (fun y => y.id))
      crR n hcr hcrn fuel 1 [] [] hn (by omega)
    rw [harith] at h
    rw [get_longread_ids, h]
    simp
  · have h := pagedLoop_run (tS ids) (fun r => r.pages_count)
      (fun lrs r => lrs ++ r.page_titles.map
        (fun x => ({ id := x.longread_id, uuid := x.uuid } : Longread)))
      tR n ht htn fuel 1 [] [] hn (by omega)
    rw [harith] at h
    rw [get_longreads_uuids, h]
    simp
  · intro pS lr
    cases hp : pS lr.id lr.uuid with
    | none => simp [get_longread_content, hp]
    | some resp => simp [get_longread_content, hp]

/-! ## Concrete inputs for counterexamples and witnesses -/

/-- A program without materials. -/
def c3prog1 : ProgJson :=
  { id := 1, name := "P1".toList, order := 0, sections := [], extra := [] }

/-- A material with id 7. -/
def c3mat : MatJson := { id := 7, name := "m".toList, order := 0, extra := [] }

/-- A section holding the one material. -/
def c3sec : SecJson :=
  { id := 3, name := "s".toList, order := 0, materials := [c3mat], extra := [] }

/-- A program holding the one section. -/
def c3prog2 : ProgJson :=
  { id := 2, name := "P2".toList, order := 0, sections := [c3sec], extra := [] }

/-- Servers for which the first program is processed completely but the
`materials-cr` request of the second program fails. -/
def c3servers : Servers :=
  { lp := fun _ => some { learning_programs := [c3prog1, c3prog2], pages_count := 1 },
    cr := fun body _ => if body == [] then some { materials := [], pages_count := 1 } else none,
    titles := fun _ _ => some { page_titles := [], pages_count := 1 },
    page := fun _ _ => some { body := [], pages_count := 1 } }

/-- C3 counterexample: a run aborted by an HTTP failure while fetching the
second program's materials has already written the first program's `.md`,
`.htm` and `.pdf`: partial results do persist on an aborted run. -/
theorem C3_counterexample :
    main_run c3servers (fun s => s) (fun s => s) 3
      = ([FileEvent.writeMd "P1".toList tocMarker,
          FileEvent.writeHtml "P1".toList tocMarker,
          FileEvent.writePdf "P1".toList], RunResult.abort)
    ∧ ¬ (main_run c3servers (fun s => s) (fun s => s) 3).1 = [] := by
  decide

/-- The `longreads/page` response used for the C4 counterexample: its
pagination metadata reports three pages. -/
def c4resp : PageResp := { body := "x".toList, pages_count := 3 }

/-- A server that always answers `c4resp`. -/
def c4server : Nat → Str → Option PageResp := fun _ _ => some c4resp

/-- A longread id/uuid pair. -/
def c4longread : Longread := { id := 5, uuid := "u".toList }

/-- C4 counterexample: `get_longread_content` is not paginated; even when
the response's pagination metadata reports 3 pages it issues exactly one
request (and that request carries the longread id and page uuid, no page
number), so the fourth endpoint does not loop until the reported page
count is reached. -/
theorem C4_counterexample :
    c4server c4longread.id c4longread.uuid = some c4resp
    ∧ c4resp.pages_count = 3
    ∧ (get_longread_content c4server c4longread).1.length = 1
    ∧ ¬ ((get_longread_content c4server c4longread).1.length
          = c4resp.pages_count) := by
  decide

/-- A page-1 program named `A` with id 1. -/
def c5progA : ProgJson :=
  { id := 1, name := "A".toList, order := 0, sections := [], extra := [] }

/-- A page-2 program named `B` with the same id 1. -/
def c5progB : ProgJson :=
  { id := 1, name := "B".toList, order := 0, sections := [], extra := [] }

/-- First learning-programs page. -/
def c5page1 : LPResp := { learning_programs := [c5progA], pages_count := 2 }

/-- Second learning-programs page. -/
def c5page2 : LPResp := { learning_programs := [c5progB], pages_count := 2 }

/-- A server serving the two pages. -/
def c5server : Nat → Option LPResp :=
  fun p => if p = 1 then some c5page1 else some c5page2

/-- C5 counterexample: ids are unique within each response page, yet the
merged dictionary does not keep every fetched program: the page-2 program
with the repeated id overwrites the page-1 program, whose name `A` appears
in no entry of the result. -/
theorem C5_counterexample :
    (c5page1.learning_programs.map (fun p => p.id)).Nodup
    ∧ (c5page2.learning_programs.map (fun p => p.id)).Nodup
    ∧ c5progA ∈ c5page1.learning_programs
    ∧ get_learning_programs c5server 2
        = ([1, 2], Outcome.ok [(1, extract_program c5progB)])
    ∧ (∀ kv ∈ [(1, extract_program c5progB)], ¬ kv.2.name = c5progA.name) := by
  decide

/-- A constant learning-programs response used by witnesses: two programs,
two pages reported. -/
def w6lpResp : LPResp :=
  { learning_programs := [c3prog1, c3prog2], pages_count := 2 }

/-- Page-indexed responses (all equal). -/
def w6lpR : Nat → LPResp := fun _ => w6lpResp

/-- The corresponding server. -/
def w6lpS : Nat → Option LPResp := fun q => some (w6lpR q)

/-- A constant `materials-cr` response: one longread material, one other. -/
def w6crResp : CRResp :=
  { materials := [ { id := 7, type := "longread".toList, extra := [] },
      { id := 8, type := "video".toList, extra := [] } ], pages_count := 2 }

/-- Page-indexed responses (all equal). -/
def w6crR : Nat → CRResp := fun _ => w6crResp

/-- The corresponding server. -/
def w6crS : List Nat → Nat → Option CRResp := fun _ q => some (w6crR q)

/-- A constant titles response: one page title for longread 7. -/
def w6tResp : TitlesResp :=
  { page_titles := [ { longread_id := 7, uuid := "u1".toList, extra := [] } ],
    pages_count := 2 }

/-- Page-indexed responses (all equal). -/
def w6tR : Nat → TitlesResp := fun _ => w6tResp

/-- The corresponding server. -/
def w6tS : List Nat → Nat → Option TitlesResp := fun _ q => some (w6tR q)

/-- The program whose material ids form the request body. -/
def w6program : ProgramVal := extract_program c3prog2

/-- The longread-id request body used by the titles fetch. -/
def w6ids : List Nat := [7]

theorem C6_witness :
    get_learning_programs w6lpS 5
      = ([1, 2], Outcome.ok
          [(1, extract_program c3prog1), (2, extract_program c3prog2)])
    ∧ (get_longread_ids w6crS w6program 5).2 = Outcome.ok [7, 7]
    ∧ (get_longreads_uuids w6tS w6ids 5).2
        = Outcome.ok [⟨7, "u1".toList⟩, ⟨7, "u1".toList⟩] := by
  have h := C6_paginated_merge w6lpS w6lpR w6crS w6crR w6tS w6tR w6program
    w6ids 2 5 (fun q => rfl) (fun q => rfl) (fun q => rfl) (fun q => rfl)
    (fun q => rfl) (fun q => rfl) (by omega) (by omega)
  refine ⟨?_, ?_, ?_⟩
  · rw [h.1]
    decide
  · rw [h.2.1]
    decide
  · rw [h.2.2]
    decide

theorem C4_witness :
    (get_learning_programs w6lpS 5).1 = [1, 2]
    ∧ (get_longread_ids w6crS w6program 5).1 = [1, 2]
    ∧ (get_longreads_uuids w6tS w6ids 5).1 = [1, 2]
    ∧ (get_longread_content c4server c4longread).1 = [(5, "u".toList)] := by
  have h := C4_amended_three_paginated_endpoints w6lpS w6lpR w6crS w6crR
    w6tS w6tR w6program w6ids 2 5 (fun q => rfl) (fun q => rfl) (fun q => rfl)
    (fun q => rfl) (fun q => rfl) (fun q => rfl) (by omega) (by omega)
  refine ⟨?_, ?_, ?_, ?_⟩
  · rw [h.1]
    decide
  · rw [h.2.1]
    decide
  · rw [h.2.2.1]
    decide
  · rw [h.2.2.2 c4server c4longread]
    decide

/-- Second page for the C5 witness: a program with a fresh id. -/
def w5resp2 : LPResp := { learning_programs := [c3prog2], pages_count := 2 }

/-- Page-indexed responses: page 1 carries program id 1, page 2 program id 2. -/
def w5R : Nat → LPResp := fun q => if q = 1 then c5page1 else w5resp2

/-- The corresponding server. -/
def w5S : Nat → Option LPResp := fun q => some (w5R q)

theorem C5_witness :
    (get_learning_programs w5S 5).2
      = Outcome.ok [(1, extract_program c5progA), (2, extract_program c3prog2)] := by
  have h := C5_amended_unique_across_pages w5S w5R 2 5 (fun q => rfl)
    (fun q => by unfold w5R; split <;> rfl) (by omega) (by omega) (by decide)
  rw [h]
  decide

theorem C7_witness :
    (get_longread_ids w6crS w6program 5).2 = Outcome.ok [7, 7]
    ∧ (filter_longreads w6program [7, 9]).sections
        = [{ id := 3, name := "s".toList, order := 0,
             materials := [{ id := 7, name := "m".toList, order := 0 }] }] := by
  have h := C7_longread_filtering w6crS w6crR w6program 2 5 (fun q => rfl)
    (fun q => rfl) (by omega) (by omega)
  refine ⟨?_, ?_⟩
  · rw [h.1]
    decide
  · decide

/-- Sections for the assembly witnesses: the extracted sections of the
two-level fixture program. -/
def w1sections : List Section := (extract_program c3prog2).sections

/-- Content for the assembly witnesses: one entry for material 7 whose body
has a heading line. -/
def w1content : List ContentEntry :=
  [ { id := 7, content := "# h\nbody".toList } ]

theorem C1_witness :
    create_program_content_md (sortedByKey (fun s => s.order) w1sections)
        w1content
      = some (specAssembledDoc w1sections w1content) :=
  C1_assembled_document w1sections w1content (by decide)

theorem C9_witness :
    (splitNl (specAssembledDoc w1sections w1content)).filter isLevel1
      = [('#' :: ' ' :: "m".toList)] := by
  have h := C9_level1_headings w1sections w1content
    (specAssembledDoc w1sections w1content) (by decide) (by decide) (by decide)
  rw [h.2.2]
  decide
